import Mathlib

/- Shallow embedding of the core logic of `src/app.py` (CFA mistake logger):
the rule-based field extractor `parse_text`, the validator `is_valid_data`,
and the sanitizer `clean_text_field`, together with the static `PARSING_RULES`
table. Python regular-expression searching (`re.search`) is a standard-library
primitive, not repository code, so it is modelled as an abstract search
function parameter: it receives the flag set
`re.IGNORECASE | re.DOTALL | re.MULTILINE`, the pattern source string and the
whole raw text, and returns an optional match (whole match plus the optional
text of capture group 1). The string primitives the Python code uses
(`str.strip`, `str.lower`, `str.capitalize`, `str.split`, substring tests,
`int`) are embedded executably over `List Char`, restricted to the ASCII
whitespace and letter classes. -/

/-- ASCII whitespace class: Python `\s` and the characters removed by
`str.strip`, restricted to ASCII. -/
def isPySpace (c : Char) : Bool :=
  c = ' ' || c = '\t' || c = '\n' || c = '\x0b' || c = '\x0c' || c = '\r'

/-- Python `value.split(sep)` for a one-character separator: every occurrence
splits, empty pieces are kept, the empty input gives one empty piece. -/
def splitOnChar (sep : Char) : List Char → List (List Char)
  | [] => [[]]
  | c :: rest =>
    match splitOnChar sep rest with
    | [] => [[]]
    | cur :: parts => if c = sep then [] :: cur :: parts else (c :: cur) :: parts

/-- Python substring test `needle in hay`. -/
def hasSubstr (needle : List Char) : List Char → Bool
  | [] => needle.isEmpty
  | c :: rest => needle.isPrefixOf (c :: rest) || hasSubstr needle rest

/-- Python `str.lower` (ASCII model). -/
def pyLower (s : String) : String := ⟨s.data.map Char.toLower⟩

/-- Python `str.capitalize`: first character upper-cased, every remaining
character lower-cased (ASCII model). -/
def pyCapitalize (s : String) : String :=
  match s.data with
  | [] => ""
  | c :: rest => ⟨c.toUpper :: rest.map Char.toLower⟩

/-- Leading-whitespace removal, the first half of Python `str.strip`. -/
def dropLead (l : List Char) : List Char := l.dropWhile isPySpace

/-- Trailing-whitespace removal, the second half of Python `str.strip`. -/
def dropTrail (l : List Char) : List Char := (l.reverse.dropWhile isPySpace).reverse

/-- Python `str.strip` on a character list. -/
def stripList (l : List Char) : List Char := dropTrail (dropLead l)

/-- Python `str.strip` on a string. -/
def pyStrip (s : String) : String := ⟨stripList s.data⟩

/-- Decimal digit value of a character, when it is a digit. -/
def digitVal (c : Char) : Option Nat :=
  if '0' ≤ c ∧ c ≤ '9' then some (c.toNat - '0'.toNat) else none

/-- Digits of a Python decimal literal after the first digit: single
underscores are allowed between digits, nowhere else. -/
def pyDigitsRest (acc : Nat) : List Char → Option Nat
  | [] => some acc
  | '_' :: c :: rest =>
    match digitVal c with
    | some d => pyDigitsRest (acc * 10 + d) rest
    | none => none
  | ['_'] => none
  | c :: rest =>
    match digitVal c with
    | some d => pyDigitsRest (acc * 10 + d) rest
    | none => none

/-- Unsigned part of Python `int(s)`: a nonempty digit sequence that starts
with a digit. -/
def pyNat? : List Char → Option Nat
  | [] => none
  | c :: rest =>
    match digitVal c with
    | some d => pyDigitsRest d rest
    | none => none

/-- Python `int(s)` on a decimal string: surrounding whitespace is stripped,
one optional sign is allowed, then digits; `none` is a raised `ValueError`. -/
def pyInt? (l : List Char) : Option Int :=
  match stripList l with
  | '+' :: rest => (pyNat? rest).map fun n => (n : Int)
  | '-' :: rest => (pyNat? rest).map fun n => -(n : Int)
  | rest => (pyNat? rest).map fun n => (n : Int)

/-- Result of a successful `re.search`: the whole matched text (`group(0)`)
and, when the pattern defines a capture group, the text of `group(1)`.
Every capture group in `PARSING_RULES` participates whenever its pattern
matches, so a matched group is always a string. -/
structure RMatch where
  group0 : String
  group1 : Option String
deriving DecidableEq

/-- The flag set a search runs under. -/
structure ReFlags where
  ignorecase : Bool
  dotall : Bool
  multiline : Bool
deriving DecidableEq

/-- `re.IGNORECASE | re.DOTALL | re.MULTILINE`, the flags `parse_text` passes
to every search. -/
def searchFlags : ReFlags := { ignorecase := true, dotall := true, multiline := true }

/-- Abstract model of `re.search(pattern, text, flags)`: the Python regex
engine, applied to the entire text. -/
abbrev SearchFn := ReFlags → String → String → Option RMatch

/-- The `PARSING_RULES['Category']` pattern list, verbatim. -/
def categoryRules : List String := [
  r"Application of the Code and Standards: Level II",
  r"([A-Z][a-zA-Z\s:]+Level\s+[IVX]+)",
  r"Review Category[:\s]+(.*?)(?=\n|Question)",
  r"Done Practicing\s*([A-Z][a-zA-Z\s]+?)(?=\s*Question|\s*\d+\s+of\s+\d+|\n|$)",
  r"\n\s*([A-Z][a-zA-Z\s]+?)\s*\n\s*demonstrate the use",
  r"^(.*?)\n"]

/-- The `PARSING_RULES['Question Number']` pattern list, verbatim. -/
def questionNumberRules : List String := [
  r"Question\s+(\d+\s+of\s+\d+)",
  r"Question[:\s]+(\d+ of \d+)",
  r"(\d+\s+of\s+\d+)"]

/-- The `PARSING_RULES['Result']` pattern list, verbatim. -/
def resultRules : List String := [
  r"Your result is (\w+)\.",
  r"✓.*?(Correct)",
  r"\b(Correct|Incorrect)\b",
  r"Correct Answer.*?Your Answer.*?([A-Z])\s*✓"]

/-- The `PARSING_RULES['Question Text']` pattern list, verbatim. -/
def questionTextRules : List String := [
  r"Question\s*\n(.*?)(?=\s*A\.\s*$|\s*A\.\s*\n|\s*Solution)",
  r"Question\s*\n\s*(.*?)(?=\s*Did.*violate)",
  r"Question\s*\n(.*?)(?=\s*A\.|Solution)",
  r"(?:^|\n)\s*Question\s*\n(.*?)(?=\nSolution|\nA\.)",
  r"Question\s+(.*?)(?=\nA\.|\nSolution)",
  r"Question\s+(.*?)(?=\s*A\.\s*lower|\s*Solution)"]

/-- The `PARSING_RULES['Confidence Level']` pattern list, verbatim. -/
def confidenceLevelRules : List String := [
  r"Confidence Level:\s*([^\n\r]*?)(?=\n|$|Continue)",
  r"Confidence Level:[^\n]*?\n([^\n\r]*?)(?=\n|$|Continue)"]

/-- The `PARSING_RULES['Time Spent']` pattern list, verbatim. -/
def timeSpentRules : List String := [
  r"Total:\s*(\d{2}:\d{2})",
  r"This Question:\s*(\d{2}:\d{2})",
  r"Time Spent:\s*(\d+ secs?)",
  r"Time Spent:\s*([^\n]*?)(?=\n|$)"]

/-- The `PARSING_RULES['Difficulty Level']` pattern list, verbatim. -/
def difficultyLevelRules : List String := [
  r"Difficulty Level:\s*([^\n]*?)(?=\n|$)"]

/-- The static rule table `PARSING_RULES` of `src/app.py`, in its insertion
order: field name to ordered pattern list. -/
def PARSING_RULES : List (String × List String) := [
  ("Category", categoryRules),
  ("Question Number", questionNumberRules),
  ("Result", resultRules),
  ("Question Text", questionTextRules),
  ("Confidence Level", confidenceLevelRules),
  ("Time Spent", timeSpentRules),
  ("Difficulty Level", difficultyLevelRules)]

/-- The `try` block of the Time Spent conversion in `parse_text`:
`value.split(':')`, the `len == 2` test, `int` on both parts, the range test
`0 <= minutes <= 999 and 0 <= seconds <= 59`, and the f-string rendering.
`Except.error ()` is a `ValueError` raised by `int`, caught by the
surrounding `except` clause. -/
def convertTimeTry (value : String) : Except Unit String :=
  match splitOnChar ':' value.data with
  | [p0, p1] =>
    match pyInt? p0, pyInt? p1 with
    | some minutes, some seconds =>
      if 0 ≤ minutes ∧ minutes ≤ 999 ∧ 0 ≤ seconds ∧ seconds ≤ 59 then
        Except.ok (if minutes = 0 then toString seconds ++ " secs"
          else toString minutes ++ " mins " ++ toString seconds ++ " secs")
      else Except.ok value
    | _, _ => Except.error ()
  | _ => Except.ok value

/-- Python `'sec' in value.lower()`. -/
def secInLower (value : String) : Bool := hasSubstr "sec".data (pyLower value).data

/-- Python `':' in value`. -/
def hasColon (value : String) : Bool := value.data.contains ':'

/-- The Time Spent branch of `parse_text`: keep a value already in seconds
form, otherwise convert `MM:SS` inside try/except, otherwise keep the value. -/
def normalizeTime (value : String) : String :=
  if secInLower value then value
  else if hasColon value then
    match convertTimeTry value with
    | Except.ok v => v
    | Except.error _ => value
  else value

/-- The per-field special handling of `parse_text`: `value.capitalize()` for
Result, time conversion for Time Spent, identity elsewhere. -/
def normalizeField (field value : String) : String :=
  if field = "Result" then pyCapitalize value
  else if field = "Time Spent" then normalizeTime value
  else value

/-- The value drawn from a match: `match.group(1).strip()` when the pattern
has a capture group (`match.groups()` nonempty), else `match.group(0).strip()`. -/
def matchValue (m : RMatch) : String :=
  match m.group1 with
  | some g => pyStrip g
  | none => pyStrip m.group0

/-- The inner pattern loop of `parse_text`: try each pattern in listed order
and stop at the first match. -/
def firstRMatch (S : SearchFn) (raw : String) : List String → Option RMatch
  | [] => none
  | p :: rest =>
    match S searchFlags p raw with
    | some m => some m
    | none => firstRMatch S raw rest

/-- One field of `parse_text`: the normalized value of the first matching
pattern, or the empty string when every pattern fails. -/
def fieldValue (S : SearchFn) (raw field : String) (patterns : List String) : String :=
  match firstRMatch S raw patterns with
  | some m => normalizeField field (matchValue m)
  | none => ""

/-- An extracted record: the `parsed_data` dict, in insertion order. -/
abbrev Record := List (String × String)

/-- `parse_text(raw_text)` of `src/app.py`, parameterized by the regex
engine `S`: `None` on empty or whitespace-only input, else one entry per
`PARSING_RULES` key. -/
def parse_text (S : SearchFn) (raw_text : String) : Option Record :=
  if raw_text = "" ∨ pyStrip raw_text = "" then none
  else some (PARSING_RULES.map fun fp => (fp.1, fieldValue S raw_text fp.1 fp.2))

/-- Python `data[k]` / `k in data` on the record dict. -/
def lookup? (d : Record) (k : String) : Option String :=
  match d with
  | [] => none
  | (k2, v) :: rest => if k2 = k then some v else lookup? rest k

/-- Python `data.get(k, dflt)`. -/
def getD (d : Record) (k dflt : String) : String := (lookup? d k).getD dflt

/-- The `essential_fields` list of `is_valid_data`. -/
def essential_fields : List String := ["Category", "Result"]

/-- `is_valid_data(data)` of `src/app.py`: falsy input is invalid, every
essential field must be present with nonblank content, and every branch
after that check answers `True`. -/
def is_valid_data : Option Record → Bool
  | none => false
  | some data =>
    if data.isEmpty then false
    else if !(essential_fields.all fun field =>
        match lookup? data field with
        | none => false
        | some v => pyStrip v != "") then false
    else if pyStrip (getD data "Question Number" "") != "" then true
    else if pyStrip (getD data "Question Text" "") != "" then true
    else true

/-- First step of `clean_text_field`: `re.sub(r'\r?\n', ' ', text)` first
consumes each carriage return that directly precedes a line feed; the
remaining line feeds become spaces in `lfToSpace`. -/
def dropCRLF : List Char → List Char
  | [] => []
  | c :: rest =>
    if c = '\r' ∧ rest.head? = some '\n' then dropCRLF rest
    else c :: dropCRLF rest

/-- Second half of `re.sub(r'\r?\n', ' ', text)`: each line feed becomes one
space. -/
def lfToSpace (l : List Char) : List Char :=
  l.map fun c => if c = '\n' then ' ' else c

/-- `re.sub(r'\s+', ' ', text)`: each maximal whitespace run becomes one
space; the flag records whether the previous character was whitespace. -/
def collapseWS : Bool → List Char → List Char
  | _, [] => []
  | true, c :: rest =>
    if isPySpace c then collapseWS true rest else c :: collapseWS false rest
  | false, c :: rest =>
    if isPySpace c then ' ' :: collapseWS true rest else c :: collapseWS false rest

/-- `clean_text_field(text)` of `src/app.py`: empty in, empty out; otherwise
line terminators to spaces, whitespace runs collapsed, ends trimmed. -/
def clean_text_field (text : String) : String :=
  if text = "" then ""
  else ⟨stripList (collapseWS false (lfToSpace (dropCRLF text.data)))⟩

/-- Adjacent characters are not both spaces. -/
def NoAdjSp (a b : Char) : Prop := ¬(a = ' ' ∧ b = ' ')

/-- A regex engine that never matches, used to instantiate witnesses. -/
def noSearch : SearchFn := fun _ _ _ => none

/-- A regex engine that matches exactly one pattern string with a fixed
match, used to instantiate witnesses. -/
def litSearch (pat0 : String) (m0 : RMatch) : SearchFn :=
  fun _ pat _ => if pat = pat0 then some m0 else none

/-- Keys of the rule table are pairwise distinct. -/
theorem rules_keys_nodup : (PARSING_RULES.map Prod.fst).Nodup := by decide

/-- On an association list with distinct keys, mapping values and looking a
key up returns the mapped value of that key's entry. -/
theorem lookup_map_rules (f : String × List String → String)
    (rules : List (String × List String)) (hnd : (rules.map Prod.fst).Nodup)
    (field : String) (patterns : List String) (hmem : (field, patterns) ∈ rules) :
    lookup? (rules.map fun fp => (fp.1, f fp)) field = some (f (field, patterns)) := by
  induction rules with
  | nil => cases hmem
  | cons hd tl ih =>
    obtain ⟨k, ps⟩ := hd
    simp only [List.map_cons, List.nodup_cons] at hnd
    rcases List.mem_cons.mp hmem with heq | hmem2
    · cases heq
      simp [lookup?]
    · have hk : k ≠ field := by
        intro h
        subst h
        exact hnd.1 (List.mem_map.mpr ⟨(k, patterns), hmem2, rfl⟩)
      simp only [List.map_cons, lookup?, if_neg hk]
      exact ih hnd.2 hmem2

/-- The pattern loop returns the match of the first pattern that matches. -/
theorem firstRMatch_spec (S : SearchFn) (raw : String) :
    ∀ (patterns : List String) (i : Nat) (pat : String) (m : RMatch),
      patterns[i]? = some pat →
      S searchFlags pat raw = some m →
      (∀ j, j < i → ∀ q, patterns[j]? = some q → S searchFlags q raw = none) →
      firstRMatch S raw patterns = some m
  | [], i, pat, m, hget, _, _ => by simp at hget
  | p :: rest, 0, pat, m, hget, hm, _ => by
    simp only [List.getElem?_cons_zero, Option.some.injEq] at hget
    subst hget
    simp [firstRMatch, hm]
  | p :: rest, i + 1, pat, m, hget, hm, hprev => by
    have h0 : S searchFlags p raw = none := hprev 0 (Nat.succ_pos i) p (by simp)
    simp only [firstRMatch, h0]
    exact firstRMatch_spec S raw rest i pat m (by simpa using hget) hm
      (fun j hj q hq => hprev (j + 1) (Nat.succ_lt_succ hj) q (by simpa using hq))

/-- The head of a `dropWhile` result fails the predicate. -/
theorem head?_dropWhile (p : Char → Bool) (l : List Char) (c : Char)
    (h : (l.dropWhile p).head? = some c) : p c = false := by
  induction l with
  | nil => simp [List.dropWhile] at h
  | cons a t ih =>
    by_cases hp : p a
    · rw [List.dropWhile_cons, if_pos hp] at h
      exact ih h
    · rw [List.dropWhile_cons, if_neg hp] at h
      simp only [List.head?_cons, Option.some.injEq] at h
      subst h
      simpa using hp

/-- Dropping a prefix twice is dropping it once. -/
theorem dropWhile_self (p : Char → Bool) (l : List Char) :
    (l.dropWhile p).dropWhile p = l.dropWhile p := by
  induction l with
  | nil => rfl
  | cons a t ih =>
    by_cases hp : p a
    · rw [List.dropWhile_cons, if_pos hp]
      exact ih
    · rw [List.dropWhile_cons, if_neg hp, List.dropWhile_cons, if_neg hp]

/-- A list whose head fails `isPySpace` loses nothing to `dropLead`. -/
theorem dropLead_of_head (l : List Char)
    (h : ∀ c, l.head? = some c → isPySpace c = false) : dropLead l = l := by
  cases l with
  | nil => rfl
  | cons a t =>
    have ha := h a rfl
    rw [dropLead, List.dropWhile_cons, if_neg (by simp [ha])]

/-- A list splits as its trailing-stripped part plus the stripped tail. -/
theorem dropTrail_append (l : List Char) :
    l = dropTrail l ++ (l.reverse.takeWhile isPySpace).reverse := by
  unfold dropTrail
  rw [← List.reverse_append, List.takeWhile_append_dropWhile, List.reverse_reverse]

/-- Python `strip` is idempotent. -/
theorem stripList_idem (l : List Char) : stripList (stripList l) = stripList l := by
  unfold stripList
  set A := dropLead l with hA
  have hAhead : ∀ c, A.head? = some c → isPySpace c = false := fun c hc =>
    head?_dropWhile isPySpace l c hc
  have hhead : ∀ c, (dropTrail A).head? = some c → isPySpace c = false := by
    intro c hc
    apply hAhead
    cases hD : dropTrail A with
    | nil => rw [hD] at hc; cases hc
    | cons d ds =>
      rw [hD] at hc
      have h2 : A.head? = some d := by
        conv_lhs => rw [dropTrail_append A, hD]
        rfl
      have hdc : d = c := by simpa using hc
      rw [hdc] at h2
      exact h2
  have h1 : dropLead (dropTrail A) = dropTrail A := dropLead_of_head _ hhead
  have h2 : dropTrail (dropTrail A) = dropTrail A := by
    conv_lhs => unfold dropTrail
    rw [List.reverse_reverse, dropWhile_self]
    rfl
  rw [h1, h2]

/-- Strip to the empty list exactly on all-whitespace input. -/
theorem stripList_eq_nil_iff (l : List Char) :
    stripList l = [] ↔ ∀ c ∈ l, isPySpace c = true := by
  unfold stripList dropTrail
  rw [List.reverse_eq_nil_iff, List.dropWhile_eq_nil_iff]
  constructor
  · intro h c hc
    rcases List.mem_append.mp ((List.takeWhile_append_dropWhile (p := isPySpace) (l := l)) ▸ hc)
      with htk | hdp
    · exact List.mem_takeWhile_imp htk
    · exact h c (List.mem_reverse.mpr hdp)
  · intro h c hc
    exact h c ((List.dropWhile_sublist isPySpace).subset (List.mem_reverse.mp hc))

/-- Members survive stripping. -/
theorem stripList_mem {c : Char} {l : List Char} (h : c ∈ stripList l) : c ∈ l := by
  unfold stripList dropTrail dropLead at h
  exact (List.dropWhile_sublist isPySpace).subset
    ((List.dropWhile_sublist isPySpace).subset (List.mem_reverse.mp h) |> List.mem_reverse.mp)

/-- Whitespace surviving `collapseWS` is the plain space. -/
theorem collapseWS_mem_space (l : List Char) :
    ∀ (b : Bool) (c : Char), c ∈ collapseWS b l → isPySpace c = true → c = ' ' := by
  induction l with
  | nil => intro b c hc; cases b <;> simp [collapseWS] at hc
  | cons a t ih =>
    intro b c hc hsp
    by_cases ha : isPySpace a
    · cases b with
      | true =>
        rw [collapseWS, if_pos ha] at hc
        exact ih true c hc hsp
      | false =>
        rw [collapseWS, if_pos ha] at hc
        rcases List.mem_cons.mp hc with h | h
        · exact h
        · exact ih true c h hsp
    · cases b with
      | true =>
        rw [collapseWS, if_neg ha] at hc
        rcases List.mem_cons.mp hc with h | h
        · subst h; exact absurd hsp (by simpa using ha)
        · exact ih false c h hsp
      | false =>
        rw [collapseWS, if_neg ha] at hc
        rcases List.mem_cons.mp hc with h | h
        · subst h; exact absurd hsp (by simpa using ha)
        · exact ih false c h hsp

/-- After the collapse has just emitted a space, the next emitted character
is not a space. -/
theorem collapseWS_head_true (l : List Char) :
    (collapseWS true l).head? ≠ some ' ' := by
  induction l with
  | nil => simp [collapseWS]
  | cons a t ih =>
    by_cases ha : isPySpace a
    · rw [collapseWS, if_pos ha]
      exact ih
    · rw [collapseWS, if_neg ha]
      intro h
      simp only [List.head?_cons, Option.some.injEq] at h
      subst h
      simp [isPySpace] at ha

/-- The collapsed list never has two adjacent spaces. -/
theorem collapseWS_chain (l : List Char) :
    ∀ b : Bool, List.Chain' NoAdjSp (collapseWS b l) := by
  induction l with
  | nil => intro b; cases b <;> simp [collapseWS]
  | cons a t ih =>
    intro b
    by_cases ha : isPySpace a
    · cases b with
      | true => rw [collapseWS, if_pos ha]; exact ih true
      | false =>
        rw [collapseWS, if_pos ha]
        refine List.chain'_cons'.mpr ⟨?_, ih true⟩
        intro y hy h2
        exact collapseWS_head_true t (by rw [hy]; exact congrArg some h2.2)
    · have hane : a ≠ ' ' := by
        intro h; subst h; simp [isPySpace] at ha
      cases b with
      | true =>
        rw [collapseWS, if_neg ha]
        exact List.chain'_cons'.mpr ⟨fun y _ h2 => hane h2.1, ih false⟩
      | false =>
        rw [collapseWS, if_neg ha]
        exact List.chain'_cons'.mpr ⟨fun y _ h2 => hane h2.1, ih false⟩

/-- On a list whose whitespace is single plain spaces with no two adjacent,
the collapse (started outside a whitespace run) changes nothing. -/
theorem collapseWS_id (l : List Char) :
    ∀ b : Bool, (∀ c ∈ l, isPySpace c = true → c = ' ') →
      List.Chain' NoAdjSp l → (b = true → l.head? ≠ some ' ') →
      collapseWS b l = l := by
  induction l with
  | nil => intro b _ _ _; cases b <;> rfl
  | cons a t ih =>
    intro b hmem hch hb
    by_cases ha : isPySpace a
    · have haeq : a = ' ' := hmem a (List.mem_cons_self a t) ha
      cases b with
      | true => exact absurd (by simp [haeq]) (hb rfl)
      | false =>
        rw [collapseWS, if_pos ha, haeq]
        have hth : t.head? ≠ some ' ' := by
          intro hh
          rcases List.chain'_cons'.mp hch with ⟨hrel, _⟩
          exact hrel ' ' hh ⟨haeq, rfl⟩
        rw [ih true (fun c hc => hmem c (List.mem_cons_of_mem a hc))
          (List.chain'_cons'.mp hch).2 (fun _ => hth)]
    · cases b with
      | true =>
        rw [collapseWS, if_neg ha]
        rw [ih false (fun c hc => hmem c (List.mem_cons_of_mem a hc))
          (List.chain'_cons'.mp hch).2 (fun h => nomatch h)]
      | false =>
        rw [collapseWS, if_neg ha]
        rw [ih false (fun c hc => hmem c (List.mem_cons_of_mem a hc))
          (List.chain'_cons'.mp hch).2 (fun h => nomatch h)]

/-- `dropWhile` preserves the adjacency chain. -/
theorem chain_dropWhile {R : Char → Char → Prop} (p : Char → Bool) (l : List Char)
    (h : List.Chain' R l) : List.Chain' R (l.dropWhile p) := by
  induction l with
  | nil => simp [List.dropWhile]
  | cons a t ih =>
    by_cases hp : p a
    · rw [List.dropWhile_cons, if_pos hp]
      exact ih (List.chain'_cons'.mp h).2
    · rw [List.dropWhile_cons, if_neg hp]
      exact h

/-- Reversal preserves the (symmetric) adjacency chain. -/
theorem chain_noAdjSp_reverse (l : List Char) (h : List.Chain' NoAdjSp l) :
    List.Chain' NoAdjSp l.reverse := by
  apply List.chain'_reverse.mpr
  exact h.imp fun a b hab => fun hba => hab ⟨hba.2, hba.1⟩

/-- Stripping preserves the adjacency chain. -/
theorem chain_stripList (l : List Char) (h : List.Chain' NoAdjSp l) :
    List.Chain' NoAdjSp (stripList l) := by
  unfold stripList dropTrail dropLead
  exact chain_noAdjSp_reverse _ (chain_dropWhile _ _ (chain_noAdjSp_reverse _
    (chain_dropWhile _ _ h)))

/-- Without a line feed after it, no carriage return is dropped; without any
carriage return the first substitution step is the identity. -/
theorem dropCRLF_id (l : List Char) (h : ∀ c ∈ l, c ≠ '\r') : dropCRLF l = l := by
  induction l with
  | nil => rfl
  | cons a t ih =>
    rw [dropCRLF, if_neg, ih (fun c hc => h c (List.mem_cons_of_mem a hc))]
    intro hconj
    exact h a (List.mem_cons_self a t) hconj.1

/-- Without line feeds the second substitution step is the identity. -/
theorem lfToSpace_id (l : List Char) (h : ∀ c ∈ l, c ≠ '\n') : lfToSpace l = l := by
  induction l with
  | nil => rfl
  | cons a t ih =>
    rw [lfToSpace, List.map_cons, if_neg (h a (List.mem_cons_self a t))]
    have := ih fun c hc => h c (List.mem_cons_of_mem a hc)
    rw [lfToSpace] at this
    rw [this]

/-- A string made from a character list is empty exactly when the list is. -/
theorem string_mk_eq_empty_iff (l : List Char) : (⟨l⟩ : String) = "" ↔ l = [] := by
  constructor
  · intro h
    exact congrArg String.data h
  · intro h
    rw [h]

/-- Stripping a string to empty means the string was all whitespace. -/
theorem pyStrip_eq_empty_iff (s : String) :
    pyStrip s = "" ↔ ∀ c ∈ s.data, isPySpace c = true := by
  rw [pyStrip, string_mk_eq_empty_iff, stripList_eq_nil_iff]

/-- A split yielding several pieces needs an occurrence of the separator. -/
theorem splitOnChar_of_not_contains (sep : Char) (l : List Char)
    (h : l.contains sep = false) : splitOnChar sep l = [l] := by
  induction l with
  | nil => rfl
  | cons c rest ih =>
    simp only [List.contains_cons, Bool.or_eq_false_iff, beq_eq_false_iff_ne] at h
    have hc : c ≠ sep := fun he => h.1 he.symm
    simp [splitOnChar, ih h.2, hc]

/-- Characterization of the validator on a present record: true exactly when
both essential fields are present with nonblank content. -/
theorem is_valid_some_iff (d : Record) :
    is_valid_data (some d) = true ↔
      ((∃ c, lookup? d "Category" = some c ∧ pyStrip c ≠ "")
       ∧ (∃ r, lookup? d "Result" = some r ∧ pyStrip r ≠ "")) := by
  cases d with
  | nil => simp [is_valid_data, lookup?]
  | cons hd tl =>
    rcases hC : lookup? (hd :: tl) "Category" with _ | c
    · simp [is_valid_data, essential_fields, hC]
    · rcases hR : lookup? (hd :: tl) "Result" with _ | r
      · simp [is_valid_data, essential_fields, hC, hR]
      · by_cases hc : pyStrip c = "" <;> by_cases hr : pyStrip r = "" <;>
          simp [is_valid_data, essential_fields, hC, hR, hc, hr]

/-- Claim C3: the validator returns false for a null record, and for every
non-null record it returns true exactly when both the Category and the
Result values are present and nonblank after trimming, so no other field
affects the verdict. -/
theorem c3_validator_essentials :
    is_valid_data none = false
    ∧ ∀ d : Record, (is_valid_data (some d) = true ↔
        ((∃ c, lookup? d "Category" = some c ∧ pyStrip c ≠ "")
         ∧ (∃ r, lookup? d "Result" = some r ∧ pyStrip r ≠ ""))) :=
  ⟨rfl, fun d => is_valid_some_iff d⟩

/-- Witness for C3: a record with blank Category is rejected even with a
good Result and a long Question Text, and Category plus Result suffice. -/
theorem c3_validator_essentials_witness :
    is_valid_data (some [("Category", ""), ("Result", "Correct"),
      ("Question Text", "A long and well-formed question text")]) = false
    ∧ is_valid_data (some [("Category", "Ethics"), ("Result", "Correct")]) = true := by
  constructor
  · have h := (c3_validator_essentials.2 [("Category", ""), ("Result", "Correct"),
      ("Question Text", "A long and well-formed question text")])
    cases hv : is_valid_data (some [("Category", ""), ("Result", "Correct"),
      ("Question Text", "A long and well-formed question text")]) with
    | false => rfl
    | true =>
      obtain ⟨⟨c, hc, hcn⟩, -⟩ := h.mp hv
      have : c = "" := by
        have := hc
        simp [lookup?] at this
        exact this.symm
      exact absurd (by simp [this]; rfl) hcn
  · exact (c3_validator_essentials.2 _).mpr
      ⟨⟨"Ethics", by decide, by decide⟩, ⟨"Correct", by decide, by decide⟩⟩

/-- Claim C9: the verdict is a function of the Category and Result entries
only, and once the essential checks pass every later branch answers true. -/
theorem c9_verdict_function_of_essentials (d1 d2 : Record)
    (hc : lookup? d1 "Category" = lookup? d2 "Category")
    (hr : lookup? d1 "Result" = lookup? d2 "Result") :
    is_valid_data (some d1) = is_valid_data (some d2)
    ∧ ∀ d : Record, (∃ c, lookup? d "Category" = some c ∧ pyStrip c ≠ "") →
        (∃ r, lookup? d "Result" = some r ∧ pyStrip r ≠ "") →
        is_valid_data (some d) = true := by
  constructor
  · cases h1 : is_valid_data (some d1) with
    | true =>
      obtain ⟨hcat, hres⟩ := (is_valid_some_iff d1).mp h1
      exact ((is_valid_some_iff d2).mpr ⟨hc ▸ hcat, hr ▸ hres⟩).symm
    | false =>
      cases h2 : is_valid_data (some d2) with
      | false => rfl
      | true =>
        obtain ⟨hcat, hres⟩ := (is_valid_some_iff d2).mp h2
        have h3 := (is_valid_some_iff d1).mpr ⟨hc.symm ▸ hcat, hr.symm ▸ hres⟩
        rw [h1] at h3
        exact h3
  · intro d hcat hres
    exact (is_valid_some_iff d).mpr ⟨hcat, hres⟩

/-- Witness for C9: two records differing only in inessential fields get
the same verdict. -/
theorem c9_verdict_function_of_essentials_witness :
    is_valid_data (some [("Category", "Ethics"), ("Result", "Correct")])
      = is_valid_data (some [("Category", "Ethics"), ("Result", "Correct"),
          ("Question Text", "anything")]) :=
  (c9_verdict_function_of_essentials _ _ (by decide) (by decide)).1

/-- Claim C10: a non-empty record missing the Category key or the Result
key entirely is invalid, the same as a blank value, and no error occurs. -/
theorem c10_missing_essential_key (d : Record) (_hne : d ≠ [])
    (h : lookup? d "Category" = none ∨ lookup? d "Result" = none) :
    is_valid_data (some d) = false := by
  cases hv : is_valid_data (some d) with
  | false => rfl
  | true =>
    obtain ⟨⟨c, hc, -⟩, ⟨r, hr, -⟩⟩ := (is_valid_some_iff d).mp hv
    rcases h with h | h
    · rw [h] at hc; cases hc
    · rw [h] at hr; cases hr

/-- Witness for C10: a record with only a Result entry is invalid. -/
theorem c10_missing_essential_key_witness :
    is_valid_data (some [("Result", "Correct")]) = false :=
  c10_missing_essential_key [("Result", "Correct")] (by decide) (Or.inl (by decide))

/-- Claim C4: the extractor returns null exactly on empty or whitespace-only
input; any other input yields a record. -/
theorem c4_none_iff_blank (S : SearchFn) (raw : String) :
    parse_text S raw = none ↔ (raw = "" ∨ ∀ c ∈ raw.data, isPySpace c = true) := by
  by_cases hcond : raw = "" ∨ pyStrip raw = ""
  · rw [parse_text, if_pos hcond]
    simp only [true_iff]
    rcases hcond with h | h
    · exact Or.inl h
    · exact Or.inr ((pyStrip_eq_empty_iff raw).mp h)
  · rw [parse_text, if_neg hcond]
    constructor
    · intro h
      exact Option.noConfusion h
    · intro h
      refine absurd ?_ hcond
      rcases h with h | h
      · exact Or.inl h
      · exact Or.inr ((pyStrip_eq_empty_iff raw).mpr h)

/-- Witness for C4: whitespace yields null, one letter yields a record. -/
theorem c4_none_iff_blank_witness :
    parse_text noSearch "   " = none ∧ parse_text noSearch "x" ≠ none := by
  constructor
  · exact (c4_none_iff_blank noSearch "   ").mpr (Or.inr (by decide))
  · intro h
    rcases (c4_none_iff_blank noSearch "x").mp h with h2 | h2
    · exact absurd h2 (by decide)
    · exact absurd (h2 'x' (by decide)) (by decide)

/-- Claim C6: extraction, validation and sanitization are total — every
string input yields a value — and the one internally fallible step, the
`int` conversion inside the time normalization, is caught so that a raised
conversion error leaves the raw value unchanged. -/
theorem c6_core_total (S : SearchFn) (raw : String) (d : Option Record) (x v : String) :
    (parse_text S raw = none ∨ ∃ rec, parse_text S raw = some rec)
    ∧ (is_valid_data d = false ∨ is_valid_data d = true)
    ∧ (∃ y, clean_text_field x = y)
    ∧ (convertTimeTry v = Except.error () → normalizeTime v = v) := by
  refine ⟨?_, ?_, ⟨clean_text_field x, rfl⟩, ?_⟩
  · by_cases h : raw = "" ∨ pyStrip raw = ""
    · exact Or.inl (by rw [parse_text, if_pos h])
    · exact Or.inr ⟨_, by rw [parse_text, if_neg h]⟩
  · cases hb : is_valid_data d
    · exact Or.inl rfl
    · exact Or.inr rfl
  · intro herr
    rw [normalizeTime]
    by_cases h1 : secInLower v
    · rw [if_pos h1]
    · rw [if_neg h1]
      by_cases h2 : hasColon v
      · rw [if_pos h2, herr]
      · rw [if_neg h2]

/-- Witness for C6: the malformed time string is preserved unchanged. -/
theorem c6_core_total_witness : normalizeTime "abc:def" = "abc:def" :=
  (c6_core_total noSearch "" none "" "abc:def").2.2.2 rfl

/-- Claim C1: for every field of the rule table and every non-blank input,
`parse_text` tries the field's patterns in their listed order, each searched
with `re.IGNORECASE | re.DOTALL | re.MULTILINE` against the entire raw text;
the first pattern that matches determines the field's raw value — the
trimmed capture group 1 when the pattern has a capture group, otherwise the
trimmed whole match — handed to the per-field normalizer, and no later
pattern for that field is consulted. -/
theorem c1_first_pattern_wins (S : SearchFn) (raw field : String)
    (patterns : List String) (i : Nat) (pat : String) (m : RMatch)
    (hmem : (field, patterns) ∈ PARSING_RULES)
    (hraw : ¬(raw = "" ∨ pyStrip raw = ""))
    (hget : patterns[i]? = some pat)
    (hm : S searchFlags pat raw = some m)
    (hprev : ∀ j, j < i → ∀ q, patterns[j]? = some q → S searchFlags q raw = none) :
    ∃ rec, parse_text S raw = some rec ∧
      lookup? rec field = some (normalizeField field
        (match m.group1 with
         | some g => pyStrip g
         | none => pyStrip m.group0)) := by
  refine ⟨PARSING_RULES.map fun fp => (fp.1, fieldValue S raw fp.1 fp.2), ?_, ?_⟩
  · rw [parse_text, if_neg hraw]
  · rw [lookup_map_rules _ PARSING_RULES rules_keys_nodup field patterns hmem]
    have hfirst := firstRMatch_spec S raw patterns i pat m hget hm hprev
    rw [fieldValue, hfirst]
    rfl

/-- Witness for C1: an engine matching exactly the first Category pattern,
a group-less pattern, stores its trimmed whole match. -/
theorem c1_first_pattern_wins_witness :
    ∃ rec, parse_text
        (litSearch "Application of the Code and Standards: Level II"
          ⟨"Application of the Code and Standards: Level II", none⟩) "x" = some rec ∧
      lookup? rec "Category"
        = some (normalizeField "Category"
            (pyStrip "Application of the Code and Standards: Level II")) :=
  c1_first_pattern_wins
    (litSearch "Application of the Code and Standards: Level II"
      ⟨"Application of the Code and Standards: Level II", none⟩)
    "x" "Category" categoryRules 0
    "Application of the Code and Standards: Level II"
    ⟨"Application of the Code and Standards: Level II", none⟩
    (by decide) (by decide) (by decide) (by decide)
    (fun j hj _ _ => absurd hj (Nat.not_lt_zero j))

/-- Claim C5: for every non-blank input the record has an entry for every
rule-table key, each entry is a present string, and a field all of whose
patterns fail is mapped to the empty string. -/
theorem c5_every_field_present (S : SearchFn) (raw : String)
    (hraw : ¬(raw = "" ∨ pyStrip raw = "")) :
    ∃ rec, parse_text S raw = some rec ∧
      ∀ fp ∈ PARSING_RULES, ∃ v, lookup? rec fp.1 = some v ∧
        (firstRMatch S raw fp.2 = none → v = "") := by
  refine ⟨PARSING_RULES.map fun fp => (fp.1, fieldValue S raw fp.1 fp.2), ?_, ?_⟩
  · rw [parse_text, if_neg hraw]
  · intro fp hfp
    refine ⟨fieldValue S raw fp.1 fp.2, ?_, ?_⟩
    · exact lookup_map_rules _ PARSING_RULES rules_keys_nodup fp.1 fp.2 hfp
    · intro hnone
      rw [fieldValue, hnone]

/-- Witness for C5: under an engine with no matches, every field is the
empty string. -/
theorem c5_every_field_present_witness :
    ∃ rec, parse_text noSearch "x" = some rec ∧
      ∀ fp ∈ PARSING_RULES, ∃ v, lookup? rec fp.1 = some v ∧
        (firstRMatch noSearch "x" fp.2 = none → v = "") :=
  c5_every_field_present noSearch "x" (by decide)

/-- Claim C8: the stored Result value is the raw matched value with its
first letter upper-cased and the remaining letters lower-cased; in
particular "correct" becomes "Correct" and "INCORRECT" becomes "Incorrect". -/
theorem c8_result_capitalized (S : SearchFn) (raw : String) (m : RMatch)
    (hraw : ¬(raw = "" ∨ pyStrip raw = ""))
    (hm : firstRMatch S raw resultRules = some m) :
    (∃ rec, parse_text S raw = some rec ∧
      lookup? rec "Result" = some (pyCapitalize (matchValue m)))
    ∧ pyCapitalize "correct" = "Correct"
    ∧ pyCapitalize "INCORRECT" = "Incorrect" := by
  refine ⟨⟨PARSING_RULES.map fun fp => (fp.1, fieldValue S raw fp.1 fp.2), ?_, ?_⟩,
    by decide, by decide⟩
  · rw [parse_text, if_neg hraw]
  · rw [lookup_map_rules _ PARSING_RULES rules_keys_nodup "Result" resultRules (by decide)]
    rw [fieldValue, hm]
    rfl

/-- Witness for C8: a lower-case "correct" capture is stored as "Correct". -/
theorem c8_result_capitalized_witness :
    ∃ rec, parse_text
        (litSearch r"Your result is (\w+)\." ⟨"Your result is correct.", some "correct"⟩)
        "x" = some rec ∧
      lookup? rec "Result" = some (pyCapitalize
        (matchValue ⟨"Your result is correct.", some "correct"⟩)) :=
  (c8_result_capitalized
    (litSearch r"Your result is (\w+)\." ⟨"Your result is correct.", some "correct"⟩)
    "x" ⟨"Your result is correct.", some "correct"⟩ (by decide) (by decide)).1

/-- Claim C2: a raw Time Spent value containing "sec" (case-insensitively)
is kept unchanged; otherwise a value that splits at the colon into exactly
two integer parts with minutes in [0,999] and seconds in [0,59] is rendered
as seconds only when minutes is zero and as minutes and seconds otherwise;
every parse failure keeps the raw value unchanged; "00:03" becomes "3 secs"
and "01:36" becomes "1 mins 36 secs". -/
theorem c2_time_normalization (v : String) (p0 p1 : List Char) (mins secs : Int) :
    (secInLower v = true → normalizeTime v = v)
    ∧ (secInLower v = false → splitOnChar ':' v.data = [p0, p1] →
        pyInt? p0 = some mins → pyInt? p1 = some secs →
        0 ≤ mins → mins ≤ 999 → 0 ≤ secs → secs ≤ 59 →
        normalizeTime v = (if mins = 0 then toString secs ++ " secs"
          else toString mins ++ " mins " ++ toString secs ++ " secs"))
    ∧ (secInLower v = false →
        (¬ ∃ (a : List Char) (b : List Char) (m2 s2 : Int),
            splitOnChar ':' v.data = [a, b]
            ∧ pyInt? a = some m2 ∧ pyInt? b = some s2
            ∧ 0 ≤ m2 ∧ m2 ≤ 999 ∧ 0 ≤ s2 ∧ s2 ≤ 59) →
        normalizeTime v = v)
    ∧ normalizeTime "00:03" = "3 secs"
    ∧ normalizeTime "01:36" = "1 mins 36 secs" := by
  refine ⟨?_, ?_, ?_, by decide, by decide⟩
  · intro h
    rw [normalizeTime, if_pos h]
  · intro hsec hsplit hm hs hm0 hm999 hs0 hs59
    have hcolon : hasColon v = true := by
      cases hcol : hasColon v with
      | true => rfl
      | false =>
        rw [splitOnChar_of_not_contains ':' v.data hcol] at hsplit
        cases hsplit
    rw [normalizeTime, if_neg (by simp [hsec]), if_pos hcolon]
    simp [convertTimeTry, hsplit, hm, hs, hm0, hm999, hs0, hs59]
  · intro hsec hfail
    rw [normalizeTime, if_neg (by simp [hsec])]
    by_cases hcol : hasColon v
    · rw [if_pos hcol, convertTimeTry]
      rcases hsp : splitOnChar ':' v.data with _ | ⟨a, rest⟩
      · rfl
      · rcases rest with _ | ⟨b, rest2⟩
        · rfl
        · rcases rest2 with _ | ⟨c, rest3⟩
          · rcases hma : pyInt? a with _ | m2
            · simp [hma]
            · rcases hmb : pyInt? b with _ | s2
              · simp [hma, hmb]
              · by_cases hrange : 0 ≤ m2 ∧ m2 ≤ 999 ∧ 0 ≤ s2 ∧ s2 ≤ 59
                · exact absurd ⟨a, b, m2, s2, hsp, hma, hmb, hrange.1, hrange.2.1,
                    hrange.2.2.1, hrange.2.2.2⟩ hfail
                · simp [hma, hmb, hrange]
          · rfl
    · rw [if_neg hcol]

/-- Witness for C2: the minutes-and-seconds rendering at "01:36". -/
theorem c2_time_normalization_witness : normalizeTime "01:36" = "1 mins 36 secs" :=
  (c2_time_normalization "01:36" "01".data "36".data 1 36).2.1
    (by decide) (by decide) (by decide) (by decide)
    (by decide) (by decide) (by decide) (by decide)

/-- Claim C7: the sanitizer, which turns line terminators into spaces,
collapses whitespace runs to one space and trims the ends, is idempotent. -/
theorem c7_sanitizer_idempotent (x : String) :
    clean_text_field (clean_text_field x) = clean_text_field x := by
  by_cases hx : x = ""
  · rw [hx]
    simp [clean_text_field]
  · have hdef : clean_text_field x
        = ⟨stripList (collapseWS false (lfToSpace (dropCRLF x.data)))⟩ := by
      rw [clean_text_field, if_neg hx]
    rw [hdef]
    by_cases hL : (⟨stripList (collapseWS false (lfToSpace (dropCRLF x.data)))⟩ : String) = ""
    · rw [hL]
      simp [clean_text_field]
    · rw [clean_text_field, if_neg hL]
      refine congrArg String.mk ?_
      show stripList (collapseWS false (lfToSpace (dropCRLF
          (stripList (collapseWS false (lfToSpace (dropCRLF x.data)))))))
        = stripList (collapseWS false (lfToSpace (dropCRLF x.data)))
      set K := collapseWS false (lfToSpace (dropCRLF x.data)) with hK
      set L := stripList K with hLdef
      have hspace : ∀ c ∈ L, isPySpace c = true → c = ' ' := fun c hc hsp =>
        collapseWS_mem_space _ false c (stripList_mem hc) hsp
      have hchain : List.Chain' NoAdjSp L := chain_stripList K (collapseWS_chain _ false)
      have hnr : ∀ c ∈ L, c ≠ '\r' := by
        intro c hc h
        subst h
        exact absurd (hspace _ hc (by decide)) (by decide)
      have hnl : ∀ c ∈ L, c ≠ '\n' := by
        intro c hc h
        subst h
        exact absurd (hspace _ hc (by decide)) (by decide)
      rw [dropCRLF_id L hnr, lfToSpace_id L hnl,
        collapseWS_id L false hspace hchain (fun h => nomatch h)]
      rw [hLdef]
      exact stripList_idem K
